import Mathlib

/-!
Shallow embedding of the Swarm Algorithm of Thoughts optimizer
(`src/app.py`, class `SwarmAoT`).

Positions form an arbitrary type `α`; the problem space an arbitrary type
`σ`.  Scores (the Python floats returned by `heuristic`) are modelled as
rationals, and `global_best_score` lives in `WithTop ℚ`, whose `⊤` is the
`float('inf')` sentinel set by the constructor.  The `random.choice`
draws of `_initialize_swarm` are modelled by a deterministic draw
sequence `sample : ℕ → α` supplied by the caller (draw `i` initialises
agent `i`).

Two ghost traces are threaded through the loop so the observable
behaviour can be stated: `evals` records every heuristic score computed
at an (iteration, agent) step, and `notifs` records every printed
improvement message as an (iteration, agent index, score) triple.
Neither trace influences the computation.
-/

/-- Minimum of a list of scores in `WithTop ℚ` (`⊤` for the empty list). -/
def scoresInf : List ℚ → WithTop ℚ
  | [] => ⊤
  | q :: l => min (q : WithTop ℚ) (scoresInf l)

/-- The best-tracking state mutated by `SwarmAoT.optimize`: the fields
`global_best` / `global_best_score` of the Python object, plus the two
ghost traces. -/
structure BestSt (α : Type) where
  best : Option α
  bestScore : WithTop ℚ
  notifs : List (ℕ × ℕ × ℚ)
  evals : List ℚ
deriving DecidableEq

/-- The `if score < self.global_best_score` block of `optimize`
(src/app.py lines 68–71), for a score already computed: replace the
global best exactly on strict improvement and record the printed
message; the score itself is always recorded in the `evals` trace. -/
def bestUpdate (iter idx : ℕ) (pos : α) (score : ℚ) (st : BestSt α) :
    BestSt α :=
  if (score : WithTop ℚ) < st.bestScore then
    { best := some pos
      bestScore := (score : WithTop ℚ)
      notifs := st.notifs ++ [(iter, idx, score)]
      evals := st.evals ++ [score] }
  else
    { st with evals := st.evals ++ [score] }

/-- One (iteration, agent) step of the inner loop of `optimize`
(src/app.py lines 63–74): evaluate the heuristic on the agent's current
position, update the global best, then move the agent with `update_fn`. -/
def agentStep (h : α → ℚ) (u : α → σ → α) (space : σ) (iter idx : ℕ)
    (pos : α) (st : BestSt α) : α × BestSt α :=
  (u pos space, bestUpdate iter idx pos (h pos) st)

/-- One round of `optimize`: the `for agent_idx, position in
enumerate(self.swarm)` loop.  The in-place write `self.swarm[agent_idx] = …`
touches only the index already yielded, so the loop reads exactly the
positions the round started with; the recursion mirrors that. -/
def roundAgents (h : α → ℚ) (u : α → σ → α) (space : σ) (iter : ℕ) :
    List α → ℕ → BestSt α → List α × BestSt α
  | [], _, st => ([], st)
  | pos :: rest, idx, st =>
    let r₁ := agentStep h u space iter idx pos st
    let r₂ := roundAgents h u space iter rest (idx + 1) r₁.2
    (r₁.1 :: r₂.1, r₂.2)

/-- The outer `for iteration in range(iterations)` loop of `optimize`,
running rounds `iter, iter+1, …` on the swarm and best state. -/
def runRounds (h : α → ℚ) (u : α → σ → α) (space : σ) (iter : ℕ) :
    ℕ → List α × BestSt α → List α × BestSt α
  | 0, s => s
  | n + 1, s =>
    runRounds h u space (iter + 1) n (roundAgents h u space iter s.1 0 s.2)

/-- The `SwarmAoT` object: the constructor's stored fields plus the two
ghost traces. -/
structure SwarmAoT (α σ : Type) where
  num_agents : ℕ
  problem_space : σ
  heuristic : α → ℚ
  update_fn : α → σ → α
  swarm : List α
  global_best : Option α
  global_best_score : WithTop ℚ
  notifs : List (ℕ × ℕ × ℚ)
  evals : List ℚ

/-- `SwarmAoT.__init__`: store the four inputs, draw `num_agents`
positions from the sampling sequence (`_initialize_swarm`), and set the
(no position, `+∞`) sentinel. -/
def SwarmAoT.init (num_agents : ℕ) (problem_space : σ) (heuristic : α → ℚ)
    (update_fn : α → σ → α) (sample : ℕ → α) : SwarmAoT α σ :=
  { num_agents := num_agents
    problem_space := problem_space
    heuristic := heuristic
    update_fn := update_fn
    swarm := (List.range num_agents).map sample
    global_best := none
    global_best_score := ⊤
    notifs := []
    evals := [] }

/-- `SwarmAoT.optimize(iterations)`: run the nested loop on the stored
state, return `(global_best, global_best_score)` together with the
mutated object. -/
def SwarmAoT.optimize (s : SwarmAoT α σ) (iterations : ℕ) :
    (Option α × WithTop ℚ) × SwarmAoT α σ :=
  let r := runRounds s.heuristic s.update_fn s.problem_space 0 iterations
    (s.swarm, ⟨s.global_best, s.global_best_score, s.notifs, s.evals⟩)
  ((r.2.best, r.2.bestScore),
   { s with
      swarm := r.1
      global_best := r.2.best
      global_best_score := r.2.bestScore
      notifs := r.2.notifs
      evals := r.2.evals })

/-!  Fallible collaborators.  `heuristic` and `update_fn` may raise; a
raised error of type `ε` aborts the run.  The run result carries the
state the Python object retains at the moment the exception propagates
out of `optimize`, together with `some e` for the raised error (`none`
when the run completed). -/

/-- The inner agent loop with fallible collaborators.  A `heuristic`
error leaves the whole step untouched; an `update_fn` error keeps the
score/best update already performed but leaves the swarm entry (and all
later entries) unwritten.  In both cases the remaining agents are not
processed. -/
def roundAgentsE (hE : α → Except ε ℚ) (uE : α → σ → Except ε α)
    (space : σ) (iter : ℕ) :
    List α → ℕ → BestSt α → List α × BestSt α × Option ε
  | [], _, st => ([], st, none)
  | pos :: rest, idx, st =>
    match hE pos with
    | .error e => (pos :: rest, st, some e)
    | .ok score =>
      let st' := bestUpdate iter idx pos score st
      match uE pos space with
      | .error e => (pos :: rest, st', some e)
      | .ok pos' =>
        let r := roundAgentsE hE uE space iter rest (idx + 1) st'
        (pos' :: r.1, r.2)

/-- The outer loop with fallible collaborators: an error raised in some
round propagates at once, skipping every remaining round. -/
def runRoundsE (hE : α → Except ε ℚ) (uE : α → σ → Except ε α)
    (space : σ) (iter : ℕ) :
    ℕ → List α × BestSt α → List α × BestSt α × Option ε
  | 0, s => (s.1, s.2, none)
  | n + 1, s =>
    match roundAgentsE hE uE space iter s.1 0 s.2 with
    | (sw, st, some e) => (sw, st, some e)
    | (sw, st, none) => runRoundsE hE uE space (iter + 1) n (sw, st)

/-- `optimize` with fallible collaborators, started on a given swarm and
best state: the retained state and the propagated error, if any. -/
def optimizeE (hE : α → Except ε ℚ) (uE : α → σ → Except ε α)
    (space : σ) (sw : List α) (st : BestSt α) (iterations : ℕ) :
    List α × BestSt α × Option ε :=
  runRoundsE hE uE space 0 iterations (sw, st)

/-!  Basic lemmas about `scoresInf`. -/

theorem scoresInf_append (a b : List ℚ) :
    scoresInf (a ++ b) = min (scoresInf a) (scoresInf b) := by
  induction a with
  | nil =>
    simp only [List.nil_append, scoresInf]
    exact (min_eq_right le_top).symm
  | cons q l ih =>
    rw [List.cons_append, scoresInf, scoresInf, ih, min_assoc]

theorem scoresInf_attained (l : List ℚ) (hne : l ≠ []) :
    ∃ q, q ∈ l ∧ scoresInf l = (q : WithTop ℚ) ∧ ∀ r ∈ l, q ≤ r := by
  induction l with
  | nil => exact absurd rfl hne
  | cons q l ih =>
    cases l with
    | nil =>
      refine ⟨q, by simp, ?_, ?_⟩
      · simp only [scoresInf]
        exact min_eq_left le_top
      · intro r hr
        simp only [List.mem_singleton] at hr
        exact hr ▸ le_refl q
    | cons q₂ l₂ =>
      obtain ⟨q', hmem, hinf, hle⟩ := ih (by simp)
      rcases le_total q q' with hqq | hqq
      · refine ⟨q, List.mem_cons_self q _, ?_, ?_⟩
        · rw [scoresInf, hinf]
          exact min_eq_left (WithTop.coe_le_coe.2 hqq)
        · intro r hr
          rcases List.mem_cons.1 hr with hr | hr
          · exact hr ▸ le_refl q
          · exact le_trans hqq (hle r hr)
      · refine ⟨q', List.mem_cons_of_mem q hmem, ?_, ?_⟩
        · rw [scoresInf, hinf]
          exact min_eq_right (WithTop.coe_le_coe.2 hqq)
        · intro r hr
          rcases List.mem_cons.1 hr with hr | hr
          · exact hr ▸ hqq
          · exact hle r hr

/-!  Lemmas about the best update and one agent step. -/

theorem bestUpdate_bestScore (iter idx : ℕ) (pos : α) (score : ℚ)
    (st : BestSt α) :
    (bestUpdate iter idx pos score st).bestScore
      = min ((score : WithTop ℚ)) st.bestScore := by
  simp only [bestUpdate]
  split_ifs with hlt
  · exact (min_eq_left hlt.le).symm
  · exact (min_eq_right (not_lt.1 hlt)).symm

theorem bestUpdate_evals (iter idx : ℕ) (pos : α) (score : ℚ)
    (st : BestSt α) :
    (bestUpdate iter idx pos score st).evals = st.evals ++ [score] := by
  simp only [bestUpdate]
  split_ifs <;> rfl

theorem agentStep_fst (h : α → ℚ) (u : α → σ → α) (space : σ)
    (iter idx : ℕ) (pos : α) (st : BestSt α) :
    (agentStep h u space iter idx pos st).1 = u pos space := rfl

theorem agentStep_bestScore (h : α → ℚ) (u : α → σ → α) (space : σ)
    (iter idx : ℕ) (pos : α) (st : BestSt α) :
    (agentStep h u space iter idx pos st).2.bestScore
      = min ((h pos : WithTop ℚ)) st.bestScore :=
  bestUpdate_bestScore iter idx pos (h pos) st

theorem agentStep_evals (h : α → ℚ) (u : α → σ → α) (space : σ)
    (iter idx : ℕ) (pos : α) (st : BestSt α) :
    (agentStep h u space iter idx pos st).2.evals
      = st.evals ++ [h pos] :=
  bestUpdate_evals iter idx pos (h pos) st

/-!  Lemmas about one round. -/

theorem roundAgents_fst (h : α → ℚ) (u : α → σ → α) (space : σ)
    (iter : ℕ) (sw : List α) : ∀ (idx : ℕ) (st : BestSt α),
    (roundAgents h u space iter sw idx st).1
      = sw.map (fun p => u p space) := by
  induction sw with
  | nil => intro idx st; rfl
  | cons pos rest ih =>
    intro idx st
    simp only [roundAgents, List.map_cons, agentStep_fst, ih]

theorem roundAgents_evals (h : α → ℚ) (u : α → σ → α) (space : σ)
    (iter : ℕ) (sw : List α) : ∀ (idx : ℕ) (st : BestSt α),
    (roundAgents h u space iter sw idx st).2.evals
      = st.evals ++ sw.map h := by
  induction sw with
  | nil => intro idx st; simp [roundAgents]
  | cons pos rest ih =>
    intro idx st
    simp only [roundAgents, List.map_cons, ih, agentStep_evals,
      List.append_assoc, List.singleton_append]

theorem roundAgents_bestScore (h : α → ℚ) (u : α → σ → α) (space : σ)
    (iter : ℕ) (sw : List α) : ∀ (idx : ℕ) (st : BestSt α),
    (roundAgents h u space iter sw idx st).2.bestScore
      = min st.bestScore (scoresInf (sw.map h)) := by
  induction sw with
  | nil =>
    intro idx st
    simp only [roundAgents, List.map_nil, scoresInf]
    exact (min_eq_left le_top).symm
  | cons pos rest ih =>
    intro idx st
    simp only [roundAgents, List.map_cons, scoresInf, ih, agentStep_bestScore]
    rw [← min_assoc, min_comm ((h pos : WithTop ℚ)) st.bestScore, min_assoc]

/-!  Lemmas about the outer loop. -/

theorem runRounds_snoc (h : α → ℚ) (u : α → σ → α) (space : σ) (n : ℕ) :
    ∀ (iter : ℕ) (s : List α × BestSt α),
    runRounds h u space iter (n + 1) s
      = roundAgents h u space (iter + n)
          (runRounds h u space iter n s).1 0 (runRounds h u space iter n s).2 := by
  induction n with
  | zero =>
    intro iter s
    rfl
  | succ n ih =>
    intro iter s
    have harith : iter + 1 + n = iter + (n + 1) := by omega
    calc runRounds h u space iter (n + 1 + 1) s
        = runRounds h u space (iter + 1) (n + 1)
            (roundAgents h u space iter s.1 0 s.2) := rfl
      _ = roundAgents h u space (iter + 1 + n)
            (runRounds h u space (iter + 1) n
              (roundAgents h u space iter s.1 0 s.2)).1 0
            (runRounds h u space (iter + 1) n
              (roundAgents h u space iter s.1 0 s.2)).2 := ih _ _
      _ = roundAgents h u space (iter + (n + 1))
            (runRounds h u space iter (n + 1) s).1 0
            (runRounds h u space iter (n + 1) s).2 := by rw [harith]; rfl

theorem runRounds_fst_length (h : α → ℚ) (u : α → σ → α) (space : σ)
    (n : ℕ) : ∀ (iter : ℕ) (s : List α × BestSt α),
    (runRounds h u space iter n s).1.length = s.1.length := by
  induction n with
  | zero => intro iter s; rfl
  | succ n ih =>
    intro iter s
    rw [show runRounds h u space iter (n + 1) s
        = runRounds h u space (iter + 1) n
            (roundAgents h u space iter s.1 0 s.2) from rfl, ih]
    rw [roundAgents_fst, List.length_map]

theorem runRounds_evals_bestScore (h : α → ℚ) (u : α → σ → α)
    (space : σ) (n : ℕ) : ∀ (iter : ℕ) (s : List α × BestSt α),
    ∃ suffix : List ℚ,
      (runRounds h u space iter n s).2.evals = s.2.evals ++ suffix ∧
      (runRounds h u space iter n s).2.bestScore
        = min s.2.bestScore (scoresInf suffix) := by
  induction n with
  | zero =>
    intro iter s
    exact ⟨[], by simp [runRounds], by rw [scoresInf]; exact (min_eq_left le_top).symm⟩
  | succ n ih =>
    intro iter s
    obtain ⟨suffix, hev, hbs⟩ :=
      ih (iter + 1) (roundAgents h u space iter s.1 0 s.2)
    refine ⟨s.1.map h ++ suffix, ?_, ?_⟩
    · rw [show runRounds h u space iter (n + 1) s
          = runRounds h u space (iter + 1) n
              (roundAgents h u space iter s.1 0 s.2) from rfl, hev,
        roundAgents_evals, List.append_assoc]
    · rw [show runRounds h u space iter (n + 1) s
          = runRounds h u space (iter + 1) n
              (roundAgents h u space iter s.1 0 s.2) from rfl, hbs,
        roundAgents_bestScore, scoresInf_append, min_assoc]

/-!  Consistency of the retained (position, score) pair: either the
sentinel, or the recorded score is the heuristic value of the recorded
position. -/

/-- The pair `(global_best, global_best_score)` is either the sentinel
`(None, +∞)` or a position together with its own heuristic score. -/
def ConsistentBest (h : α → ℚ) (st : BestSt α) : Prop :=
  (st.best = none ∧ st.bestScore = ⊤) ∨
  ∃ p, st.best = some p ∧ st.bestScore = (h p : WithTop ℚ)

theorem agentStep_consistent (h : α → ℚ) (u : α → σ → α) (space : σ)
    (iter idx : ℕ) (pos : α) (st : BestSt α)
    (hc : ConsistentBest h st) :
    ConsistentBest h (agentStep h u space iter idx pos st).2 := by
  simp only [agentStep, bestUpdate]
  split_ifs with hlt
  · exact Or.inr ⟨pos, rfl, rfl⟩
  · exact hc

theorem roundAgents_consistent (h : α → ℚ) (u : α → σ → α) (space : σ)
    (iter : ℕ) (sw : List α) : ∀ (idx : ℕ) (st : BestSt α),
    ConsistentBest h st →
    ConsistentBest h (roundAgents h u space iter sw idx st).2 := by
  induction sw with
  | nil => intro idx st hc; exact hc
  | cons pos rest ih =>
    intro idx st hc
    exact ih (idx + 1) _ (agentStep_consistent h u space iter idx pos st hc)

theorem runRounds_consistent (h : α → ℚ) (u : α → σ → α) (space : σ)
    (n : ℕ) : ∀ (iter : ℕ) (s : List α × BestSt α),
    ConsistentBest h s.2 →
    ConsistentBest h (runRounds h u space iter n s).2 := by
  induction n with
  | zero => intro iter s hc; exact hc
  | succ n ih =>
    intro iter s hc
    exact ih (iter + 1) _ (roundAgents_consistent h u space iter s.1 0 s.2 hc)

/-!  The fallible run agrees with the pure run when the collaborators
never raise, and satisfies the same evaluation-trace invariants. -/

theorem roundAgentsE_ok {ε : Type} (h : α → ℚ) (u : α → σ → α) (space : σ)
    (iter : ℕ) (sw : List α) : ∀ (idx : ℕ) (st : BestSt α),
    roundAgentsE (fun p => (Except.ok (h p) : Except ε ℚ))
        (fun p sp => Except.ok (u p sp)) space iter sw idx st
      = ((roundAgents h u space iter sw idx st).1,
         (roundAgents h u space iter sw idx st).2, none) := by
  induction sw with
  | nil => intro idx st; rfl
  | cons pos rest ih =>
    intro idx st
    simp only [roundAgentsE, roundAgents, agentStep, ih]

theorem runRoundsE_ok {ε : Type} (h : α → ℚ) (u : α → σ → α) (space : σ)
    (n : ℕ) : ∀ (iter : ℕ) (s : List α × BestSt α),
    runRoundsE (fun p => (Except.ok (h p) : Except ε ℚ))
        (fun p sp => Except.ok (u p sp)) space iter n s
      = ((runRounds h u space iter n s).1,
         (runRounds h u space iter n s).2, none) := by
  induction n with
  | zero => intro iter s; rfl
  | succ n ih =>
    intro iter s
    simp only [runRoundsE, roundAgentsE_ok, runRounds, ih, Prod.mk.eta]

theorem roundAgentsE_evals_bestScore (hE : α → Except ε ℚ)
    (uE : α → σ → Except ε α) (space : σ) (iter : ℕ) (sw : List α) :
    ∀ (idx : ℕ) (st : BestSt α),
    ∃ suffix : List ℚ,
      (roundAgentsE hE uE space iter sw idx st).2.1.evals
        = st.evals ++ suffix ∧
      (roundAgentsE hE uE space iter sw idx st).2.1.bestScore
        = min st.bestScore (scoresInf suffix) := by
  induction sw with
  | nil =>
    intro idx st
    exact ⟨[], by simp [roundAgentsE],
      by rw [roundAgentsE, scoresInf]; exact (min_eq_left le_top).symm⟩
  | cons pos rest ih =>
    intro idx st
    rcases hval : hE pos with e | score
    · refine ⟨[], ?_, ?_⟩
      · simp [roundAgentsE, hval]
      · rw [scoresInf]
        simp only [roundAgentsE, hval]
        exact (min_eq_left le_top).symm
    · rcases hupd : uE pos space with e | pos'
      · refine ⟨[score], ?_, ?_⟩
        · simp [roundAgentsE, hval, hupd, bestUpdate_evals]
        · simp only [roundAgentsE, hval, hupd, bestUpdate_bestScore,
            scoresInf]
          rw [min_comm ((score : WithTop ℚ)) st.bestScore,
            (min_eq_left (le_top : (score : WithTop ℚ) ≤ ⊤))]
      · obtain ⟨suffix, hev, hbs⟩ :=
          ih (idx + 1) (bestUpdate iter idx pos score st)
        refine ⟨score :: suffix, ?_, ?_⟩
        · simp only [roundAgentsE, hval, hupd]
          rw [hev, bestUpdate_evals, List.append_assoc,
            List.singleton_append]
        · simp only [roundAgentsE, hval, hupd]
          rw [hbs, bestUpdate_bestScore, scoresInf, ← min_assoc,
            min_comm ((score : WithTop ℚ)) st.bestScore, min_assoc]

theorem runRoundsE_evals_bestScore (hE : α → Except ε ℚ)
    (uE : α → σ → Except ε α) (space : σ) (n : ℕ) :
    ∀ (iter : ℕ) (s : List α × BestSt α),
    ∃ suffix : List ℚ,
      (runRoundsE hE uE space iter n s).2.1.evals = s.2.evals ++ suffix ∧
      (runRoundsE hE uE space iter n s).2.1.bestScore
        = min s.2.bestScore (scoresInf suffix) := by
  induction n with
  | zero =>
    intro iter s
    exact ⟨[], by simp [runRoundsE],
      by rw [runRoundsE, scoresInf]; exact (min_eq_left le_top).symm⟩
  | succ n ih =>
    intro iter s
    obtain ⟨suffix₁, hev₁, hbs₁⟩ :=
      roundAgentsE_evals_bestScore hE uE space iter s.1 0 s.2
    rcases hres : roundAgentsE hE uE space iter s.1 0 s.2 with ⟨sw₁, st₁, err⟩
    rw [hres] at hev₁ hbs₁
    cases err with
    | some e =>
      refine ⟨suffix₁, ?_, ?_⟩
      · simp only [runRoundsE, hres]
        exact hev₁
      · simp only [runRoundsE, hres]
        exact hbs₁
    | none =>
      obtain ⟨suffix₂, hev₂, hbs₂⟩ := ih (iter + 1) (sw₁, st₁)
      refine ⟨suffix₁ ++ suffix₂, ?_, ?_⟩
      · simp only [runRoundsE, hres]
        rw [hev₂, hev₁, List.append_assoc]
      · simp only [runRoundsE, hres]
        rw [hbs₂, hbs₁, scoresInf_append, min_assoc]

/-!  The claims. -/

/-- Claim C4: `optimize(0)` returns the pair `(global_best,
global_best_score)` as it stands — from a fresh construction, the
sentinel `(None, +∞)` — and leaves the optimizer state unchanged: no
heuristic evaluation, no `update_fn` call, no swarm mutation and no
notification happens. -/
theorem optimize_zero_is_noop {α σ : Type} :
    (∀ (s : SwarmAoT α σ),
      s.optimize 0 = ((s.global_best, s.global_best_score), s)) ∧
    (∀ (na : ℕ) (space : σ) (h : α → ℚ) (u : α → σ → α) (sample : ℕ → α),
      ((SwarmAoT.init na space h u sample).optimize 0).1
          = (none, (⊤ : WithTop ℚ)) ∧
      ((SwarmAoT.init na space h u sample).optimize 0).2.notifs = [] ∧
      ((SwarmAoT.init na space h u sample).optimize 0).2.evals = []) :=
  ⟨fun _ => rfl, fun _ _ _ _ _ => ⟨rfl, rfl, rfl⟩⟩

/-- Claim C5: within a round, the heuristic scores recorded are exactly
the scores of the positions the round started with (in order), and the
positions stored afterwards are `update_fn` of those same pre-round
positions — so a position produced by `update_fn` is never evaluated in
the step that produced it. -/
theorem round_evaluates_pre_update_positions {α σ : Type}
    (h : α → ℚ) (u : α → σ → α) (space : σ) (iter : ℕ) (sw : List α)
    (idx : ℕ) (st : BestSt α) :
    (roundAgents h u space iter sw idx st).1
        = sw.map (fun p => u p space) ∧
    (roundAgents h u space iter sw idx st).2.evals
        = st.evals ++ sw.map h :=
  ⟨roundAgents_fst h u space iter sw idx st,
   roundAgents_evals h u space iter sw idx st⟩

/-- Claim C6: the swarm's length is invariant: `num_agents` entries right
after construction, preserved by every round, and preserved by every
`optimize` call. -/
theorem swarm_length_invariant {α σ : Type} :
    (∀ (na : ℕ) (space : σ) (h : α → ℚ) (u : α → σ → α)
        (sample : ℕ → α),
      (SwarmAoT.init na space h u sample).swarm.length = na) ∧
    (∀ (h : α → ℚ) (u : α → σ → α) (space : σ) (iter : ℕ) (sw : List α)
        (idx : ℕ) (st : BestSt α),
      (roundAgents h u space iter sw idx st).1.length = sw.length) ∧
    (∀ (s : SwarmAoT α σ) (n : ℕ),
      (s.optimize n).2.swarm.length = s.swarm.length) := by
  refine ⟨?_, ?_, ?_⟩
  · intro na space h u sample
    simp [SwarmAoT.init]
  · intro h u space iter sw idx st
    rw [roundAgents_fst, List.length_map]
  · intro s n
    exact runRounds_fst_length s.heuristic s.update_fn s.problem_space n 0
      (s.swarm, ⟨s.global_best, s.global_best_score, s.notifs, s.evals⟩)

/-- Claim C9: with one agent starting at position 5 in the one-point
problem space `{5}`, the identity heuristic and a static update rule,
three iterations return `(5, 5)` and emit exactly one notification, at
iteration 0 for agent 0. -/
theorem scenario_single_agent_static :
    (((SwarmAoT.init 1 [(5 : ℚ)] (fun x : ℚ => x) (fun x _ => x)
        (fun _ => (5 : ℚ))).optimize 3).1
      = (some (5 : ℚ), ((5 : ℚ) : WithTop ℚ))) ∧
    (((SwarmAoT.init 1 [(5 : ℚ)] (fun x : ℚ => x) (fun x _ => x)
        (fun _ => (5 : ℚ))).optimize 3).2.notifs = [(0, 0, (5 : ℚ))]) :=
  ⟨by decide, by decide⟩

/-- Claim C2: the global best score never increases: it is non-increasing
at every single agent step, across every round, and `optimize k` from a
given state returns a score no larger than `optimize (k-1)` from the same
state, for every `k ≥ 1`. -/
theorem global_best_score_monotone {α σ : Type} :
    (∀ (h : α → ℚ) (u : α → σ → α) (space : σ) (iter idx : ℕ) (pos : α)
        (st : BestSt α),
      (agentStep h u space iter idx pos st).2.bestScore ≤ st.bestScore) ∧
    (∀ (h : α → ℚ) (u : α → σ → α) (space : σ) (iter : ℕ) (sw : List α)
        (idx : ℕ) (st : BestSt α),
      (roundAgents h u space iter sw idx st).2.bestScore ≤ st.bestScore) ∧
    (∀ (s : SwarmAoT α σ) (k : ℕ), 1 ≤ k →
      (s.optimize k).1.2 ≤ (s.optimize (k - 1)).1.2) := by
  refine ⟨?_, ?_, ?_⟩
  · intro h u space iter idx pos st
    rw [agentStep_bestScore]
    exact min_le_right _ _
  · intro h u space iter sw idx st
    rw [roundAgents_bestScore]
    exact min_le_left _ _
  · intro s k hk
    obtain ⟨m, rfl⟩ : ∃ m, k = m + 1 := ⟨k - 1, by omega⟩
    have hm : m + 1 - 1 = m := by omega
    rw [hm]
    show (runRounds s.heuristic s.update_fn s.problem_space 0 (m + 1)
        (s.swarm, ⟨s.global_best, s.global_best_score, s.notifs,
          s.evals⟩)).2.bestScore
      ≤ (runRounds s.heuristic s.update_fn s.problem_space 0 m
        (s.swarm, ⟨s.global_best, s.global_best_score, s.notifs,
          s.evals⟩)).2.bestScore
    rw [runRounds_snoc, roundAgents_bestScore]
    exact min_le_left _ _

/-- Witness for claim C2 at a concrete configuration (`k = 1`). -/
theorem global_best_score_monotone_witness :
    (1 : ℕ) ≤ 1 ∧
    (((SwarmAoT.init 1 () (fun x : ℚ => x) (fun x _ => x)
        (fun _ => (3 : ℚ))).optimize 1).1.2
      ≤ ((SwarmAoT.init 1 () (fun x : ℚ => x) (fun x _ => x)
        (fun _ => (3 : ℚ))).optimize (1 - 1)).1.2) :=
  ⟨le_refl 1,
   (@global_best_score_monotone ℚ Unit).2.2
     (SwarmAoT.init 1 () (fun x : ℚ => x) (fun x _ => x)
       (fun _ => (3 : ℚ))) 1 (le_refl 1)⟩

/-- Claim C1: whenever at least one heuristic evaluation was performed,
the score `optimize` returns is the minimum over all scores computed
during the run: it is attained by one of the computed scores and is a
lower bound of every computed score. -/
theorem optimize_returns_min_of_evals {α σ : Type}
    (na : ℕ) (space : σ) (h : α → ℚ) (u : α → σ → α) (sample : ℕ → α)
    (iters : ℕ)
    (hne : ((SwarmAoT.init na space h u sample).optimize iters).2.evals
      ≠ []) :
    ((SwarmAoT.init na space h u sample).optimize iters).1.2
        = scoresInf
            ((SwarmAoT.init na space h u sample).optimize iters).2.evals ∧
    ∃ q, q ∈ ((SwarmAoT.init na space h u sample).optimize iters).2.evals ∧
      ((SwarmAoT.init na space h u sample).optimize iters).1.2
          = (q : WithTop ℚ) ∧
      ∀ r ∈ ((SwarmAoT.init na space h u sample).optimize iters).2.evals,
        q ≤ r := by
  obtain ⟨suffix, hev, hbs⟩ :=
    runRounds_evals_bestScore h u space iters 0
      ((List.range na).map sample, ⟨none, ⊤, [], []⟩)
  have hev' : ((SwarmAoT.init na space h u sample).optimize iters).2.evals
      = suffix := by
    rw [show ((SwarmAoT.init na space h u sample).optimize iters).2.evals
        = (runRounds h u space 0 iters
            ((List.range na).map sample, ⟨none, ⊤, [], []⟩)).2.evals
        from rfl, hev, List.nil_append]
  have hbs' : ((SwarmAoT.init na space h u sample).optimize iters).1.2
      = scoresInf suffix := by
    rw [show ((SwarmAoT.init na space h u sample).optimize iters).1.2
        = (runRounds h u space 0 iters
            ((List.range na).map sample, ⟨none, ⊤, [], []⟩)).2.bestScore
        from rfl, hbs]
    exact min_eq_right le_top
  rw [hev'] at hne
  refine ⟨by rw [hbs', hev'], ?_⟩
  obtain ⟨q, hqmem, hqinf, hqle⟩ := scoresInf_attained suffix hne
  refine ⟨q, ?_, ?_, ?_⟩
  · rw [hev']; exact hqmem
  · rw [hbs', hqinf]
  · intro r hr
    rw [hev'] at hr
    exact hqle r hr

/-- Witness for claim C1 at a concrete configuration. -/
theorem optimize_returns_min_of_evals_witness :
    (((SwarmAoT.init 1 () (fun x : ℚ => x) (fun x _ => x)
        (fun _ => (3 : ℚ))).optimize 1).2.evals ≠ []) ∧
    (((SwarmAoT.init 1 () (fun x : ℚ => x) (fun x _ => x)
        (fun _ => (3 : ℚ))).optimize 1).1.2
        = scoresInf
            (((SwarmAoT.init 1 () (fun x : ℚ => x) (fun x _ => x)
              (fun _ => (3 : ℚ))).optimize 1).2.evals) ∧
      ∃ q, q ∈ (((SwarmAoT.init 1 () (fun x : ℚ => x) (fun x _ => x)
              (fun _ => (3 : ℚ))).optimize 1).2.evals) ∧
        (((SwarmAoT.init 1 () (fun x : ℚ => x) (fun x _ => x)
              (fun _ => (3 : ℚ))).optimize 1).1.2 = (q : WithTop ℚ)) ∧
        ∀ r ∈ (((SwarmAoT.init 1 () (fun x : ℚ => x) (fun x _ => x)
              (fun _ => (3 : ℚ))).optimize 1).2.evals), q ≤ r) :=
  ⟨by decide,
   optimize_returns_min_of_evals 1 () (fun x : ℚ => x) (fun x _ => x)
     (fun _ => (3 : ℚ)) 1 (by decide)⟩

/-- Claim C10: the returned pair is consistent: whenever a best was
recorded (score below the `+∞` sentinel) the returned score equals the
heuristic value of the returned position; and with no recorded position
the score is still the sentinel. -/
theorem global_best_matches_heuristic {α σ : Type}
    (na : ℕ) (space : σ) (h : α → ℚ) (u : α → σ → α) (sample : ℕ → α)
    (iters : ℕ) :
    (((SwarmAoT.init na space h u sample).optimize iters).1.1 = none →
      ((SwarmAoT.init na space h u sample).optimize iters).1.2 = ⊤) ∧
    (∀ p,
      ((SwarmAoT.init na space h u sample).optimize iters).1.1 = some p →
      ((SwarmAoT.init na space h u sample).optimize iters).1.2
        = (h p : WithTop ℚ)) := by
  have hc : ConsistentBest h (runRounds h u space 0 iters
      ((List.range na).map sample, ⟨none, ⊤, [], []⟩)).2 :=
    runRounds_consistent h u space iters 0
      ((List.range na).map sample, ⟨none, ⊤, [], []⟩) (Or.inl ⟨rfl, rfl⟩)
  have hc' :
      (((SwarmAoT.init na space h u sample).optimize iters).1.1 = none ∧
        ((SwarmAoT.init na space h u sample).optimize iters).1.2 = ⊤) ∨
      ∃ p,
        ((SwarmAoT.init na space h u sample).optimize iters).1.1 = some p ∧
        ((SwarmAoT.init na space h u sample).optimize iters).1.2
          = (h p : WithTop ℚ) := hc
  constructor
  · intro hnone
    rcases hc' with ⟨_, hs⟩ | ⟨p, hb, _⟩
    · exact hs
    · exact Option.noConfusion (hb.symm.trans hnone)
  · intro p hp
    rcases hc' with ⟨hb, _⟩ | ⟨p₀, hb, hs⟩
    · exact Option.noConfusion (hb.symm.trans hp)
    · have hpp : p₀ = p := Option.some.inj (hb.symm.trans hp)
      exact hpp ▸ hs

/-- Witness for claim C10 at a concrete configuration. -/
theorem global_best_matches_heuristic_witness :
    (((SwarmAoT.init 1 () (fun x : ℚ => x) (fun x _ => x)
        (fun _ => (3 : ℚ))).optimize 1).1.1 = some (3 : ℚ)) ∧
    (((SwarmAoT.init 1 () (fun x : ℚ => x) (fun x _ => x)
        (fun _ => (3 : ℚ))).optimize 1).1.2
      = (((fun x : ℚ => x) 3 : ℚ) : WithTop ℚ)) :=
  ⟨by decide,
   (global_best_matches_heuristic 1 () (fun x : ℚ => x) (fun x _ => x)
     (fun _ => (3 : ℚ)) 1).2 3 (by decide)⟩

/-- Claim C8: determinism — two optimizers built with the same agent
count, problem space, draw sequence, heuristic and update function, run
for the same number of iterations, produce the same notification
sequence and the same returned pair. -/
theorem optimize_deterministic {α σ : Type}
    (na₁ na₂ : ℕ) (space₁ space₂ : σ) (h₁ h₂ : α → ℚ)
    (u₁ u₂ : α → σ → α) (sample₁ sample₂ : ℕ → α) (iters₁ iters₂ : ℕ)
    (hna : na₁ = na₂) (hspace : space₁ = space₂) (hh : h₁ = h₂)
    (hu : u₁ = u₂) (hsample : sample₁ = sample₂)
    (hiters : iters₁ = iters₂) :
    ((SwarmAoT.init na₁ space₁ h₁ u₁ sample₁).optimize iters₁).2.notifs
      = ((SwarmAoT.init na₂ space₂ h₂ u₂ sample₂).optimize
          iters₂).2.notifs ∧
    ((SwarmAoT.init na₁ space₁ h₁ u₁ sample₁).optimize iters₁).1
      = ((SwarmAoT.init na₂ space₂ h₂ u₂ sample₂).optimize iters₂).1 := by
  subst hna hspace hh hu hsample hiters
  exact ⟨rfl, rfl⟩

/-- Witness for claim C8 at a concrete configuration. -/
theorem optimize_deterministic_witness :
    ((SwarmAoT.init 2 () (fun x : ℚ => x) (fun x _ => x + 1)
        (fun i => (i : ℚ))).optimize 2).2.notifs
      = ((SwarmAoT.init 2 () (fun x : ℚ => x) (fun x _ => x + 1)
        (fun i => (i : ℚ))).optimize 2).2.notifs ∧
    ((SwarmAoT.init 2 () (fun x : ℚ => x) (fun x _ => x + 1)
        (fun i => (i : ℚ))).optimize 2).1
      = ((SwarmAoT.init 2 () (fun x : ℚ => x) (fun x _ => x + 1)
        (fun i => (i : ℚ))).optimize 2).1 :=
  optimize_deterministic 2 2 () () (fun x : ℚ => x) (fun x : ℚ => x)
    (fun x _ => x + 1) (fun x _ => x + 1) (fun i => (i : ℚ))
    (fun i => (i : ℚ)) 2 2 rfl rfl rfl rfl rfl rfl

/-- Claim C3: at each (iteration, agent) step the retained
(best, score, messages) data changes exactly when the new score is
strictly below the current best; on a strict improvement it becomes the
current position with its score and one new notification, and an equal
score changes nothing but the evaluation trace — so the first-found best
among equal scores is retained, as the closing concrete round with two
agents scoring equally shows. -/
theorem global_best_update_iff_strict_improvement {α σ : Type} :
    (∀ (h : α → ℚ) (u : α → σ → α) (space : σ) (iter idx : ℕ) (pos : α)
        (st : BestSt α),
      (((agentStep h u space iter idx pos st).2.best,
        (agentStep h u space iter idx pos st).2.bestScore,
        (agentStep h u space iter idx pos st).2.notifs)
          ≠ (st.best, st.bestScore, st.notifs))
        ↔ ((h pos : WithTop ℚ) < st.bestScore)) ∧
    (∀ (h : α → ℚ) (u : α → σ → α) (space : σ) (iter idx : ℕ) (pos : α)
        (st : BestSt α),
      (h pos : WithTop ℚ) < st.bestScore →
        (agentStep h u space iter idx pos st).2.best = some pos ∧
        (agentStep h u space iter idx pos st).2.bestScore
            = (h pos : WithTop ℚ) ∧
        (agentStep h u space iter idx pos st).2.notifs
            = st.notifs ++ [(iter, idx, h pos)]) ∧
    (∀ (h : α → ℚ) (u : α → σ → α) (space : σ) (iter idx : ℕ) (pos : α)
        (st : BestSt α),
      (h pos : WithTop ℚ) = st.bestScore →
        (agentStep h u space iter idx pos st).2
          = { st with evals := st.evals ++ [h pos] }) ∧
    ((roundAgents (fun _ : ℚ => (1 : ℚ)) (fun p _ => p) () 0
        [(0 : ℚ), 1] 0 ⟨none, ⊤, [], []⟩).2.best = some (0 : ℚ)) := by
  refine ⟨?_, ?_, ?_, ?_⟩
  · intro h u space iter idx pos st
    simp only [agentStep, bestUpdate]
    split_ifs with hlt
    · simp only [hlt, iff_true]
      intro hEq
      have hlen := congrArg (fun t => t.2.2.length) hEq
      simp at hlen
    · simp [hlt]
  · intro h u space iter idx pos st hlt
    simp [agentStep, bestUpdate, if_pos hlt]
  · intro h u space iter idx pos st hEqScore
    have hnlt : ¬ ((h pos : WithTop ℚ) < st.bestScore) := by
      rw [hEqScore]
      exact lt_irrefl _
    simp only [agentStep, bestUpdate, if_neg hnlt]
  · decide

/-- Witness for claim C3 at a concrete step. -/
theorem global_best_update_iff_strict_improvement_witness :
    (((5 : ℚ) : WithTop ℚ) < (⊤ : WithTop ℚ)) ∧
    ((agentStep (fun x : ℚ => x) (fun x _ => x) () 0 0 (5 : ℚ)
        ⟨none, ⊤, [], []⟩).2.best = some (5 : ℚ) ∧
      (agentStep (fun x : ℚ => x) (fun x _ => x) () 0 0 (5 : ℚ)
        ⟨none, ⊤, [], []⟩).2.bestScore = (((5 : ℚ)) : WithTop ℚ) ∧
      (agentStep (fun x : ℚ => x) (fun x _ => x) () 0 0 (5 : ℚ)
        ⟨none, ⊤, [], []⟩).2.notifs = [] ++ [(0, 0, (5 : ℚ))]) :=
  ⟨by decide,
   (@global_best_update_iff_strict_improvement ℚ Unit).2.1
     (fun x : ℚ => x) (fun x _ => x) () 0 0 (5 : ℚ)
     ⟨none, ⊤, [], []⟩ (by decide)⟩

/-- Claim C7: a raised collaborator error propagates at once and aborts
the run: when nothing raises, the fallible run is exactly the pure run
with no error; an error raised by the heuristic freezes the step — the
swarm, best state and traces are returned untouched together with that
error; a round that raised makes the remaining rounds run zero steps,
returning the partial state unchanged; and in every case the retained
best score is the minimum over exactly the evaluations recorded before
the failure. -/
theorem optimize_fail_fast {α σ ε : Type} :
    (∀ (h : α → ℚ) (u : α → σ → α) (space : σ) (sw : List α)
        (st : BestSt α) (iters : ℕ),
      optimizeE (fun p => (Except.ok (h p) : Except ε ℚ))
          (fun p sp => Except.ok (u p sp)) space sw st iters
        = ((runRounds h u space 0 iters (sw, st)).1,
           (runRounds h u space 0 iters (sw, st)).2, none)) ∧
    (∀ (hE : α → Except ε ℚ) (uE : α → σ → Except ε α) (space : σ)
        (iter idx : ℕ) (pos : α) (rest : List α) (st : BestSt α) (e : ε),
      hE pos = Except.error e →
      roundAgentsE hE uE space iter (pos :: rest) idx st
        = (pos :: rest, st, some e)) ∧
    (∀ (hE : α → Except ε ℚ) (uE : α → σ → Except ε α) (space : σ)
        (iter n : ℕ) (sw sw₁ : List α) (st st₁ : BestSt α) (e : ε),
      roundAgentsE hE uE space iter sw 0 st = (sw₁, st₁, some e) →
      runRoundsE hE uE space iter (n + 1) (sw, st) = (sw₁, st₁, some e)) ∧
    (∀ (hE : α → Except ε ℚ) (uE : α → σ → Except ε α) (space : σ)
        (sw : List α) (st : BestSt α) (iters : ℕ),
      ∃ suffix : List ℚ,
        (optimizeE hE uE space sw st iters).2.1.evals
            = st.evals ++ suffix ∧
        (optimizeE hE uE space sw st iters).2.1.bestScore
            = min st.bestScore (scoresInf suffix)) := by
  refine ⟨?_, ?_, ?_, ?_⟩
  · intro h u space sw st iters
    exact runRoundsE_ok h u space iters 0 (sw, st)
  · intro hE uE space iter idx pos rest st e herr
    simp only [roundAgentsE, herr]
  · intro hE uE space iter n sw sw₁ st st₁ e hres
    simp only [runRoundsE, hres]
  · intro hE uE space sw st iters
    exact runRoundsE_evals_bestScore hE uE space iters 0 (sw, st)

/-- Witness for claim C7 at a concrete failing heuristic. -/
theorem optimize_fail_fast_witness :
    ((fun _ : ℚ => (Except.error () : Except Unit ℚ)) (5 : ℚ)
        = Except.error ()) ∧
    (roundAgentsE (fun _ : ℚ => (Except.error () : Except Unit ℚ))
        (fun (x : ℚ) (_ : Unit) => Except.ok x) () 0 [(5 : ℚ)] 0
        ⟨none, ⊤, [], []⟩
      = ([(5 : ℚ)], ⟨none, ⊤, [], []⟩, some ())) :=
  ⟨rfl,
   (@optimize_fail_fast ℚ Unit Unit).2.1
     (fun _ : ℚ => (Except.error () : Except Unit ℚ))
     (fun (x : ℚ) (_ : Unit) => Except.ok x) () 0 0 (5 : ℚ) []
     ⟨none, ⊤, [], []⟩ () rfl⟩
